import Mathlib

/-!
Shallow embedding of the Scrabble layout engine (`src/scrabble_layout.py`).

Words and Python strings are modelled as `List Char`; the board is a list of
rows (`List (List Char)`).  Board coordinates are `Int`, as in the source all
candidate coordinates may be negative before the bounds check runs; every raw
board access in the translated code paths happens only after the corresponding
bounds check has succeeded, exactly as in the source.  Python's floor division
`//` coincides with Lean's `/` on `Int` (both round toward negative infinity
for the positive divisors used here).
-/

namespace ScrabbleSpec

/-- Placement direction: `'H'` or `'V'` in the source. -/
inductive Dir where
  | H
  | V
deriving DecidableEq, Repr

/-- The board: a list of rows of characters (`self.board` in the source). -/
abbrev Board := List (List Char)

/-- Entry of `self.placed_words_info`: `{'word', 'row', 'col', 'direction'}`. -/
structure PlacedWord where
  word : List Char
  row : Int
  col : Int
  direction : Dir
deriving DecidableEq, Repr

/-- State of a `ScrabbleLayouter` instance: configuration plus mutable fields. -/
structure ScrabbleLayouter where
  boardSize : Nat
  emptyChar : Char
  board : Board
  placedWordsInfo : List PlacedWord
deriving DecidableEq, Repr

/-- `_is_within_bounds(r, c)`: `0 <= r < board_size and 0 <= c < board_size`. -/
def isWithinBounds (size : Nat) (r c : Int) : Bool :=
  decide (0 ≤ r) && decide (r < (size : Int)) && decide (0 ≤ c) && decide (c < (size : Int))

/-- Raw read of `self.board[r][c]`.  In the translated code this is only ever
evaluated at in-bounds coordinates (the source checks bounds first), so the
defaults used for out-of-range indices are never relevant there. -/
def cellAt (board : Board) (r c : Int) : Char :=
  (board.getD r.toNat []).getD c.toNat ' '

/-- Write of `self.board[r][c] = ch` (again only used at in-bounds coordinates). -/
def setCellAt (board : Board) (r c : Int) (ch : Char) : Board :=
  board.set r.toNat ((board.getD r.toNat []).set c.toNat ch)

/-- Coordinates of the next cell along a direction
(`(r, c+1)` for horizontal, `(r+1, c)` for vertical). -/
def stepCell (d : Dir) (r c : Int) : Int × Int :=
  match d with
  | Dir.H => (r, c + 1)
  | Dir.V => (r + 1, c)

/-- Coordinates of the `i`-th cell of a word starting at `(r, c)`:
`(r, c + i)` for horizontal, `(r + i, c)` for vertical. -/
def cellOf (d : Dir) (r c : Int) (i : Nat) : Int × Int :=
  match d with
  | Dir.H => (r, c + (i : Int))
  | Dir.V => (r + (i : Int), c)

/-- The perpendicular-neighbour test of `_can_place_word_at` at an empty cell:
for a horizontal word, `r > 0 and board[r-1][c] != empty` or
`r < size - 1 and board[r+1][c] != empty`; left/right for a vertical word. -/
def perpOccupied (L : ScrabbleLayouter) (d : Dir) (r c : Int) : Bool :=
  match d with
  | Dir.H =>
      (decide (r > 0) && decide (cellAt L.board (r - 1) c ≠ L.emptyChar)) ||
      (decide (r < (L.boardSize : Int) - 1) && decide (cellAt L.board (r + 1) c ≠ L.emptyChar))
  | Dir.V =>
      (decide (c > 0) && decide (cellAt L.board r (c - 1) ≠ L.emptyChar)) ||
      (decide (c < (L.boardSize : Int) - 1) && decide (cellAt L.board r (c + 1) ≠ L.emptyChar))

/-- The per-character walk of `_can_place_word_at` (the `for i, char_w in
enumerate(word)` loop), threading the `made_at_least_one_connection` flag.
`none` is an early `return False, False`; `some conn` means the walk finished
with connection flag `conn`. -/
def canPlaceWalk (L : ScrabbleLayouter) (d : Dir) (isFirstWordOnBoard : Bool) :
    List Char → Int → Int → Bool → Option Bool
  | [], _, _, conn => some conn
  | chW :: rest, r, c, conn =>
    let boardChar := cellAt L.board r c
    if boardChar ≠ L.emptyChar then
      if boardChar = chW then
        canPlaceWalk L d isFirstWordOnBoard rest (stepCell d r c).1 (stepCell d r c).2 true
      else none
    else
      if isFirstWordOnBoard = false && perpOccupied L d r c then none
      else canPlaceWalk L d isFirstWordOnBoard rest (stepCell d r c).1 (stepCell d r c).2 conn

/-- `_can_place_word_at(word, r_start, c_start, direction, is_first_word_on_board)`:
returns `(can_place, makes_connection)`. -/
def canPlaceWordAt (L : ScrabbleLayouter) (word : List Char) (rStart cStart : Int)
    (d : Dir) (isFirstWordOnBoard : Bool) : Bool × Bool :=
  if word = [] then (false, false)
  else
    let lastCell := cellOf d rStart cStart (word.length - 1)
    if !(isWithinBounds L.boardSize rStart cStart &&
         isWithinBounds L.boardSize lastCell.1 lastCell.2) then (false, false)
    else
      match canPlaceWalk L d isFirstWordOnBoard word rStart cStart false with
      | none => (false, false)
      | some conn =>
        if isFirstWordOnBoard then (true, false)
        else if conn = false then (false, false)
        else (true, conn)

/-- The write loop of `_place_word_on_board`. -/
def writeWord (board : Board) (d : Dir) : List Char → Int → Int → Board
  | [], _, _ => board
  | chW :: rest, r, c =>
    writeWord (setCellAt board r c chW) d rest (stepCell d r c).1 (stepCell d r c).2

/-- `_place_word_on_board`: writes the cells and appends to `placed_words_info`. -/
def placeWordOnBoard (L : ScrabbleLayouter) (word : List Char) (rStart cStart : Int)
    (d : Dir) : ScrabbleLayouter :=
  { L with
    board := writeWord L.board d word rStart cStart
    placedWordsInfo := L.placedWordsInfo ++
      [{ word := word, row := rStart, col := cStart, direction := d }] }

/-- The first-word block of `layout_words` (lines 134-163): horizontal centred,
vertical centred, horizontal at `(0,0)`, vertical at `(0,0)`; the first
candidate with `can_place` true is committed.  `none` models
`placed_first_word` remaining `False`. -/
def trySeedFirstWord (L : ScrabbleLayouter) (firstWord : List Char) :
    Option ScrabbleLayouter :=
  let rHCenter : Int := (L.boardSize : Int) / 2
  let cHCenter : Int := ((L.boardSize : Int) - (firstWord.length : Int)) / 2
  if (canPlaceWordAt L firstWord rHCenter cHCenter Dir.H true).1 then
    some (placeWordOnBoard L firstWord rHCenter cHCenter Dir.H)
  else
    let rVCenter : Int := ((L.boardSize : Int) - (firstWord.length : Int)) / 2
    let cVCenter : Int := (L.boardSize : Int) / 2
    if (canPlaceWordAt L firstWord rVCenter cVCenter Dir.V true).1 then
      some (placeWordOnBoard L firstWord rVCenter cVCenter Dir.V)
    else if (canPlaceWordAt L firstWord 0 0 Dir.H true).1 then
      some (placeWordOnBoard L firstWord 0 0 Dir.H)
    else if (canPlaceWordAt L firstWord 0 0 Dir.V true).1 then
      some (placeWordOnBoard L firstWord 0 0 Dir.V)
    else none

/-- The body of the innermost match in the subsequent-word search: at an anchor
cell `(r, c)` whose letter equals `word[i]`, try horizontal start
`(r, c - i)` then vertical start `(r - i, c)`, committing the first candidate
with `can_place and connected`. -/
def tryAnchorCell (L : ScrabbleLayouter) (word : List Char) (i : Nat) (r c : Nat) :
    Option (Int × Int × Dir) :=
  let resH := canPlaceWordAt L word (r : Int) ((c : Int) - (i : Int)) Dir.H false
  if resH.1 && resH.2 then some ((r : Int), (c : Int) - (i : Int), Dir.H)
  else
    let resV := canPlaceWordAt L word ((r : Int) - (i : Int)) (c : Int) Dir.V false
    if resV.1 && resV.2 then some ((r : Int) - (i : Int), (c : Int), Dir.V)
    else none

/-- Inner `for c_board in range(self.board_size)` loop of the search. -/
def searchCols (L : ScrabbleLayouter) (word : List Char) (i : Nat) (charNew : Char)
    (r : Nat) : List Nat → Option (Int × Int × Dir)
  | [] => none
  | c :: cs =>
    if cellAt L.board (r : Int) (c : Int) = charNew then
      match tryAnchorCell L word i r c with
      | some res => some res
      | none => searchCols L word i charNew r cs
    else searchCols L word i charNew r cs

/-- Middle `for r_board in range(self.board_size)` loop of the search. -/
def searchRows (L : ScrabbleLayouter) (word : List Char) (i : Nat) (charNew : Char) :
    List Nat → Option (Int × Int × Dir)
  | [] => none
  | r :: rs =>
    match searchCols L word i charNew r (List.range L.boardSize) with
    | some res => some res
    | none => searchRows L word i charNew rs

/-- Outer `for i_new_char, char_new in enumerate(word_to_place)` loop. -/
def searchLetters (L : ScrabbleLayouter) (word : List Char) :
    List Nat → Option (Int × Int × Dir)
  | [] => none
  | i :: rest =>
    match searchRows L word i (word.getD i ' ') (List.range L.boardSize) with
    | some res => some res
    | none => searchLetters L word rest

/-- The whole nested search for one subsequent word; `some (r, c, d)` is the
committed start, `none` models `found_placement_for_this_word` staying false. -/
def findPlacementForWord (L : ScrabbleLayouter) (word : List Char) :
    Option (Int × Int × Dir) :=
  searchLetters L word (List.range word.length)

/-- One iteration of the subsequent-word loop of `layout_words` (lines 177-215):
skip empty words, search, commit the found placement or leave the state alone. -/
def placeSubsequentWord (L : ScrabbleLayouter) (word : List Char) : ScrabbleLayouter :=
  if word = [] then L
  else
    match findPlacementForWord L word with
    | some (r, c, d) => placeWordOnBoard L word r c d
    | none => L

/-- `[word.upper() for word in words if word]`. -/
def normalizeWords (words : List (List Char)) : List (List Char) :=
  (words.filter (fun w => decide (w ≠ []))).map (List.map Char.toUpper)

/-- The fresh all-empty grid built by `__init__` (and by the restart reset). -/
def mkEmptyBoard (size : Nat) (emptyChar : Char) : Board :=
  List.replicate size (List.replicate size emptyChar)

/-- The reset performed before the recursive restart call of `layout_words`:
fresh board, empty placement log, configuration kept. -/
def resetForRestart (L : ScrabbleLayouter) : ScrabbleLayouter :=
  { L with board := mkEmptyBoard L.boardSize L.emptyChar, placedWordsInfo := [] }

/-- `layout_words(words)`.  The source returns `self.board`; here the whole
layouter state (board plus placement log) is returned.  The `isinstance`
guard of line 124 is not representable in the typed embedding; its
empty-list half is the first branch. -/
def layoutWords (L : ScrabbleLayouter) (words : List (List Char)) : ScrabbleLayouter :=
  if words = [] then L
  else
    match h : normalizeWords words with
    | [] => L
    | firstWord :: rest =>
      match trySeedFirstWord L firstWord with
      | some seeded => rest.foldl placeSubsequentWord seeded
      | none =>
        if rest = [] then L
        else layoutWords (resetForRestart L) rest
termination_by words.length
decreasing_by
  have h1 : (normalizeWords words).length ≤ words.length := by
    unfold normalizeWords
    rw [List.length_map]
    exact List.length_filter_le _ _
  rw [h] at h1
  simp only [List.length_cons] at h1
  omega

/-- The two `ValueError`s raised by `ScrabbleLayouter.__init__`. -/
inductive ConfigError where
  | invalidBoardSize
  | invalidEmptyChar
deriving DecidableEq, Repr

/-- `ScrabbleLayouter.__init__(board_size, empty_char)`: validates the
configuration (`board_size` a positive integer, `empty_char` a one-character
string) and builds the empty board state. -/
def mkLayouter (boardSize : Int) (emptyChar : List Char) : Except ConfigError ScrabbleLayouter :=
  if boardSize ≤ 0 then Except.error ConfigError.invalidBoardSize
  else if emptyChar.length ≠ 1 then Except.error ConfigError.invalidEmptyChar
  else Except.ok
    { boardSize := boardSize.toNat
      emptyChar := emptyChar.getD 0 ' '
      board := mkEmptyBoard boardSize.toNat (emptyChar.getD 0 ' ')
      placedWordsInfo := [] }

/-- `create_scrabble_layout(words, board_size, empty_char)`: on a
`ValueError` from the constructor it prints and returns a substitute
`board_size × board_size` grid filled with the raw `empty_char` argument.
Cells are Python strings, i.e. `List Char` here. -/
def createScrabbleLayout (words : List (List Char)) (boardSize : Int)
    (emptyChar : List Char) : List (List (List Char)) :=
  match mkLayouter boardSize emptyChar with
  | Except.ok L => ((layoutWords L words).board).map (fun row => row.map (fun chW => [chW]))
  | Except.error _ => List.replicate boardSize.toNat (List.replicate boardSize.toNat emptyChar)

/-- A freshly constructed layouter with an already-validated configuration. -/
def freshLayouter (size : Nat) (emptyChar : Char) : ScrabbleLayouter :=
  { boardSize := size
    emptyChar := emptyChar
    board := mkEmptyBoard size emptyChar
    placedWordsInfo := [] }

/-- A concrete mid-game state used as evaluation input: a 5×5 board holding
the single placed word CAT at row 2, columns 1-3. -/
def exampleLayouterCAT : ScrabbleLayouter :=
  { boardSize := 5
    emptyChar := '.'
    board :=
      [['.', '.', '.', '.', '.'],
       ['.', '.', '.', '.', '.'],
       ['.', 'C', 'A', 'T', '.'],
       ['.', '.', '.', '.', '.'],
       ['.', '.', '.', '.', '.']]
    placedWordsInfo := [{ word := ['C', 'A', 'T'], row := 2, col := 1, direction := Dir.H }] }

/-!
Spec-side definitions.  The following definitions formalise wording of the
specification (search order, seeding anchors, the no-illegal-touching
invariant, acceptance conditions); they are compared against the
source-translated functions above.
-/

/-- Spec 4.4: at an anchor cell `(r, c)` matching letter `i`, the two candidate
starts, horizontal `(r, c - i)` before vertical `(r - i, c)`. -/
def specCellCandidates (i : Nat) (r c : Nat) : List (Int × Int × Dir) :=
  [((r : Int), (c : Int) - (i : Int), Dir.H), ((r : Int) - (i : Int), (c : Int), Dir.V)]

/-- Spec 4.4: the full candidate sequence for a subsequent word, in the stated
nested order — letter index ascending, board row ascending, board column
ascending, horizontal before vertical, restricted to anchor cells whose stored
letter equals the word's letter. -/
def specCandidateStarts (L : ScrabbleLayouter) (word : List Char) : List (Int × Int × Dir) :=
  (List.range word.length).flatMap (fun i =>
    (List.range L.boardSize).flatMap (fun r =>
      (List.range L.boardSize).flatMap (fun c =>
        if cellAt L.board (r : Int) (c : Int) = word.getD i ' ' then specCellCandidates i r c
        else [])))

/-- Spec 4.4: a candidate is committed when the validator accepts it with
`made_connection = true`. -/
def specAccepted (L : ScrabbleLayouter) (word : List Char) (cand : Int × Int × Dir) : Bool :=
  (canPlaceWordAt L word cand.1 cand.2.1 cand.2.2 false).1 &&
  (canPlaceWordAt L word cand.1 cand.2.1 cand.2.2 false).2

/-- Spec 4.3: the four seeding anchors for the first word, in fixed priority
order — horizontal centred, vertical centred, horizontal at the origin,
vertical at the origin. -/
def specSeedAnchors (size : Nat) (wordLen : Nat) : List (Int × Int × Dir) :=
  [((size : Int) / 2, ((size : Int) - (wordLen : Int)) / 2, Dir.H),
   (((size : Int) - (wordLen : Int)) / 2, (size : Int) / 2, Dir.V),
   (0, 0, Dir.H),
   (0, 0, Dir.V)]

/-- The cells occupied by a logged placement. -/
def placedCells (pw : PlacedWord) : List (Int × Int) :=
  (List.range pw.word.length).map (fun i => cellOf pw.direction pw.row pw.col i)

/-- Whether a logged placement covers a given cell. -/
def coversCell (pw : PlacedWord) (p : Int × Int) : Bool :=
  decide (p ∈ placedCells pw)

/-- Spec 8: a shared intersection cell — a cell covered by at least two of the
logged placements. -/
def specSharedIntersectionCell (log : List PlacedWord) (p : Int × Int) : Bool :=
  decide (2 ≤ (log.filter (fun pw => coversCell pw p)).length)

/-- The two neighbours of a cell in the direction perpendicular to `d`. -/
def perpNeighborCells (d : Dir) (p : Int × Int) : List (Int × Int) :=
  match d with
  | Dir.H => [(p.1 - 1, p.2), (p.1 + 1, p.2)]
  | Dir.V => [(p.1, p.2 - 1), (p.1, p.2 + 1)]

/-- Spec 8 / claim C1, negated form: some non-first logged word has a letter
whose perpendicular neighbour is an occupied cell belonging to another logged
word, and the adjacency involves no shared intersection cell at either
endpoint. -/
def specIllegalPerpTouch (L : ScrabbleLayouter) : Bool :=
  (List.range L.placedWordsInfo.length).any (fun k =>
    decide (1 ≤ k) &&
    ((placedCells (L.placedWordsInfo.getD k ⟨[], 0, 0, Dir.H⟩)).any (fun p =>
      (perpNeighborCells (L.placedWordsInfo.getD k ⟨[], 0, 0, Dir.H⟩).direction p).any (fun q =>
        isWithinBounds L.boardSize q.1 q.2 &&
        decide (cellAt L.board q.1 q.2 ≠ L.emptyChar) &&
        ((List.range L.placedWordsInfo.length).any (fun j =>
          decide (j ≠ k) && coversCell (L.placedWordsInfo.getD j ⟨[], 0, 0, Dir.H⟩) q)) &&
        !specSharedIntersectionCell L.placedWordsInfo p &&
        !specSharedIntersectionCell L.placedWordsInfo q))))

/-!
Lemmas: the nested search loops compute the first accepted candidate of the
spec-ordered candidate sequence.
-/

theorem tryAnchorCell_eq_find (L : ScrabbleLayouter) (word : List Char) (i r c : Nat) :
    tryAnchorCell L word i r c = (specCellCandidates i r c).find? (specAccepted L word) := by
  unfold tryAnchorCell specCellCandidates specAccepted
  by_cases hH : ((canPlaceWordAt L word (r : Int) ((c : Int) - (i : Int)) Dir.H false).1 &&
      (canPlaceWordAt L word (r : Int) ((c : Int) - (i : Int)) Dir.H false).2) = true
  · simp [List.find?, hH]
  · by_cases hV : ((canPlaceWordAt L word ((r : Int) - (i : Int)) (c : Int) Dir.V false).1 &&
        (canPlaceWordAt L word ((r : Int) - (i : Int)) (c : Int) Dir.V false).2) = true
    · simp [List.find?, hH, hV]
    · simp [List.find?, hH, hV]

theorem searchCols_eq_find (L : ScrabbleLayouter) (word : List Char) (i : Nat)
    (charNew : Char) (r : Nat) (cs : List Nat) :
    searchCols L word i charNew r cs =
      (cs.flatMap (fun c =>
        if cellAt L.board (r : Int) (c : Int) = charNew then specCellCandidates i r c
        else [])).find? (specAccepted L word) := by
  induction cs with
  | nil => simp [searchCols]
  | cons c cs ih =>
    rw [List.flatMap_cons, List.find?_append]
    by_cases hc : cellAt L.board (r : Int) (c : Int) = charNew
    · rw [searchCols, if_pos hc, tryAnchorCell_eq_find]
      cases hfind : (specCellCandidates i r c).find? (specAccepted L word) with
      | some res => simp [hc, hfind]
      | none => simp [hc, hfind, ih]
    · simp [searchCols, hc, ih]

theorem searchRows_eq_find (L : ScrabbleLayouter) (word : List Char) (i : Nat)
    (charNew : Char) (rs : List Nat) :
    searchRows L word i charNew rs =
      (rs.flatMap (fun r => (List.range L.boardSize).flatMap (fun c =>
        if cellAt L.board (r : Int) (c : Int) = charNew then specCellCandidates i r c
        else []))).find? (specAccepted L word) := by
  induction rs with
  | nil => simp [searchRows]
  | cons r rs ih =>
    rw [List.flatMap_cons, List.find?_append, searchRows, searchCols_eq_find]
    cases hfind : ((List.range L.boardSize).flatMap (fun c =>
        if cellAt L.board (r : Int) (c : Int) = charNew then specCellCandidates i r c
        else [])).find? (specAccepted L word) with
    | some res => simp [hfind]
    | none => simp [hfind, ih]

theorem searchLetters_eq_find (L : ScrabbleLayouter) (word : List Char) (idxs : List Nat) :
    searchLetters L word idxs =
      (idxs.flatMap (fun i => (List.range L.boardSize).flatMap (fun r =>
        (List.range L.boardSize).flatMap (fun c =>
          if cellAt L.board (r : Int) (c : Int) = word.getD i ' ' then specCellCandidates i r c
          else [])))).find? (specAccepted L word) := by
  induction idxs with
  | nil => simp [searchLetters]
  | cons i idxs ih =>
    rw [List.flatMap_cons, List.find?_append, searchLetters, searchRows_eq_find]
    cases hfind : ((List.range L.boardSize).flatMap (fun r =>
        (List.range L.boardSize).flatMap (fun c =>
          if cellAt L.board (r : Int) (c : Int) = word.getD i ' ' then specCellCandidates i r c
          else []))).find? (specAccepted L word) with
    | some res => simp [hfind]
    | none => simp [hfind, ih]

theorem findPlacementForWord_eq_find (L : ScrabbleLayouter) (word : List Char) :
    findPlacementForWord L word =
      (specCandidateStarts L word).find? (specAccepted L word) := by
  unfold findPlacementForWord specCandidateStarts
  exact searchLetters_eq_find L word (List.range word.length)

/-!
Spec-side acceptance conditions for a non-first candidate placement
(spec 4.2, claim C4) and lemmas characterising the validator walk.
-/

/-- Every cell of the candidate's span is in bounds. -/
def specSpanInBounds (L : ScrabbleLayouter) (word : List Char) (r c : Int) (d : Dir) : Prop :=
  ∀ i < word.length,
    isWithinBounds L.boardSize (cellOf d r c i).1 (cellOf d r c i).2 = true

/-- Every already-occupied cell of the span holds the word's character there. -/
def specOccupiedCellsMatch (L : ScrabbleLayouter) (word : List Char) (r c : Int) (d : Dir) : Prop :=
  ∀ i < word.length,
    cellAt L.board (cellOf d r c i).1 (cellOf d r c i).2 ≠ L.emptyChar →
      cellAt L.board (cellOf d r c i).1 (cellOf d r c i).2 = word.getD i ' '

/-- Every empty cell of the span has both perpendicular neighbours empty
(neighbours beyond the board edge count as empty, as in the source's guards). -/
def specEmptyCellsUntouched (L : ScrabbleLayouter) (word : List Char) (r c : Int) (d : Dir) : Prop :=
  ∀ i < word.length,
    cellAt L.board (cellOf d r c i).1 (cellOf d r c i).2 = L.emptyChar →
      perpOccupied L d (cellOf d r c i).1 (cellOf d r c i).2 = false

/-- At least one cell of the span is an occupied match. -/
def specHasConnection (L : ScrabbleLayouter) (word : List Char) (r c : Int) (d : Dir) : Prop :=
  ∃ i < word.length,
    cellAt L.board (cellOf d r c i).1 (cellOf d r c i).2 ≠ L.emptyChar ∧
    cellAt L.board (cellOf d r c i).1 (cellOf d r c i).2 = word.getD i ' '

theorem cellOf_zero (d : Dir) (r c : Int) : cellOf d r c 0 = (r, c) := by
  cases d <;> simp [cellOf]

theorem cellOf_step (d : Dir) (r c : Int) (i : Nat) :
    cellOf d (stepCell d r c).1 (stepCell d r c).2 i = cellOf d r c (i + 1) := by
  cases d <;> simp [cellOf, stepCell] <;> ring

/-- The non-first walk finishes (is not an early rejection) iff every occupied
cell of the span matches and every empty cell passes the perpendicular test. -/
theorem canPlaceWalk_false_isSome_iff (L : ScrabbleLayouter) (d : Dir) (w : List Char)
    (r c : Int) (conn : Bool) :
    (canPlaceWalk L d false w r c conn).isSome = true ↔
      ∀ i < w.length,
        (cellAt L.board (cellOf d r c i).1 (cellOf d r c i).2 ≠ L.emptyChar →
          cellAt L.board (cellOf d r c i).1 (cellOf d r c i).2 = w.getD i ' ') ∧
        (cellAt L.board (cellOf d r c i).1 (cellOf d r c i).2 = L.emptyChar →
          perpOccupied L d (cellOf d r c i).1 (cellOf d r c i).2 = false) := by
  induction w generalizing r c conn with
  | nil => simp [canPlaceWalk]
  | cons chW w ih =>
    rw [canPlaceWalk]
    by_cases hocc : cellAt L.board r c ≠ L.emptyChar
    · rw [if_pos hocc]
      by_cases hmatch : cellAt L.board r c = chW
      · rw [if_pos hmatch, ih]
        constructor
        · intro htail i hi
          cases i with
          | zero =>
            rw [cellOf_zero]
            exact ⟨fun _ => hmatch, fun he => absurd he hocc⟩
          | succ j =>
            have := htail j (by simpa using hi)
            rw [cellOf_step] at this
            simpa using this
        · intro hall j hj
          have := hall (j + 1) (by simpa using hj)
          rw [← cellOf_step] at this
          simpa using this
      · rw [if_neg hmatch]
        simp only [Option.isSome_none, Bool.false_eq_true, false_iff]
        intro hall
        have := (hall 0 (by simp)).1
        rw [cellOf_zero] at this
        exact hmatch (by simpa using this hocc)
    · rw [if_neg hocc]
      push_neg at hocc
      by_cases hperp : perpOccupied L d r c = true
      · rw [if_pos (by simp [hperp])]
        simp only [Option.isSome_none, Bool.false_eq_true, false_iff]
        intro hall
        have := (hall 0 (by simp)).2
        rw [cellOf_zero] at this
        rw [this hocc] at hperp
        exact Bool.false_ne_true hperp
      · rw [if_neg (by simp [hperp]), ih]
        constructor
        · intro htail i hi
          cases i with
          | zero =>
            rw [cellOf_zero]
            exact ⟨fun hne => absurd hocc hne, fun _ => by simpa using hperp⟩
          | succ j =>
            have := htail j (by simpa using hi)
            rw [cellOf_step] at this
            simpa using this
        · intro hall j hj
          have := hall (j + 1) (by simpa using hj)
          rw [← cellOf_step] at this
          simpa using this

/-- When the non-first walk finishes, the returned connection flag is the
initial flag or-ed with the existence of an occupied cell in the span. -/
theorem canPlaceWalk_false_some_val (L : ScrabbleLayouter) (d : Dir) (w : List Char)
    (r c : Int) (conn res : Bool)
    (h : canPlaceWalk L d false w r c conn = some res) :
    res = true ↔
      (conn = true ∨ ∃ i < w.length,
        cellAt L.board (cellOf d r c i).1 (cellOf d r c i).2 ≠ L.emptyChar) := by
  induction w generalizing r c conn with
  | nil =>
    rw [canPlaceWalk] at h
    cases h
    simp
  | cons chW w ih =>
    rw [canPlaceWalk] at h
    by_cases hocc : cellAt L.board r c ≠ L.emptyChar
    · rw [if_pos hocc] at h
      by_cases hmatch : cellAt L.board r c = chW
      · rw [if_pos hmatch] at h
        rw [ih _ _ _ h]
        constructor
        · intro _
          right
          exact ⟨0, by simp, by rw [cellOf_zero]; exact hocc⟩
        · intro _
          left
          rfl
      · rw [if_neg hmatch] at h
        cases h
    · rw [if_neg hocc] at h
      push_neg at hocc
      by_cases hperp : perpOccupied L d r c = true
      · rw [if_pos (by simp [hperp])] at h
        cases h
      · rw [if_neg (by simp [hperp])] at h
        rw [ih _ _ _ h]
        constructor
        · rintro (hc | ⟨i, hi, hne⟩)
          · exact Or.inl hc
          · refine Or.inr ⟨i + 1, by simpa using hi, ?_⟩
            rw [← cellOf_step]
            exact hne
        · rintro (hc | ⟨i, hi, hne⟩)
          · exact Or.inl hc
          · cases i with
            | zero =>
              rw [cellOf_zero] at hne
              exact absurd hocc hne
            | succ j =>
              refine Or.inr ⟨j, by simpa using hi, ?_⟩
              rw [cellOf_step]
              exact hne

/-- The first-word walk over a span of empty cells succeeds and keeps the flag. -/
theorem canPlaceWalk_true_of_all_empty (L : ScrabbleLayouter) (d : Dir) (w : List Char)
    (r c : Int) (conn : Bool)
    (h : ∀ i < w.length, cellAt L.board (cellOf d r c i).1 (cellOf d r c i).2 = L.emptyChar) :
    canPlaceWalk L d true w r c conn = some conn := by
  induction w generalizing r c conn with
  | nil => rw [canPlaceWalk]
  | cons chW w ih =>
    have h0 := h 0 (by simp)
    rw [cellOf_zero] at h0
    rw [canPlaceWalk, if_neg (by simp [h0]), if_neg (by simp)]
    refine ih _ _ _ (fun i hi => ?_)
    have := h (i + 1) (by simpa using hi)
    rw [← cellOf_step] at this
    exact this

/-- The endpoint bounds test of the source is equivalent to the whole span
being in bounds, for a non-empty word. -/
theorem boundsCheck_iff_spanInBounds (L : ScrabbleLayouter) (w : List Char)
    (hw : w ≠ []) (r c : Int) (d : Dir) :
    (isWithinBounds L.boardSize r c &&
      isWithinBounds L.boardSize (cellOf d r c (w.length - 1)).1
        (cellOf d r c (w.length - 1)).2) = true ↔ specSpanInBounds L w r c d := by
  have hlen : 1 ≤ w.length := List.length_pos.mpr hw
  cases d
  case H =>
    simp only [specSpanInBounds, isWithinBounds, cellOf, Bool.and_eq_true, decide_eq_true_eq]
    constructor
    · intro hb i hi
      omega
    · intro hs
      have h0 := hs 0 (by omega)
      have h1 := hs (w.length - 1) (by omega)
      omega
  case V =>
    simp only [specSpanInBounds, isWithinBounds, cellOf, Bool.and_eq_true, decide_eq_true_eq]
    constructor
    · intro hb i hi
      omega
    · intro hs
      have h0 := hs 0 (by omega)
      have h1 := hs (w.length - 1) (by omega)
      omega

/-- Full characterisation of acceptance for a non-first candidate. -/
theorem canPlaceWordAt_false_accept_iff (L : ScrabbleLayouter) (w : List Char)
    (r c : Int) (d : Dir) :
    (canPlaceWordAt L w r c d false).1 = true ↔
      (w ≠ [] ∧ specSpanInBounds L w r c d ∧ specOccupiedCellsMatch L w r c d ∧
       specEmptyCellsUntouched L w r c d ∧ specHasConnection L w r c d) := by
  by_cases hw : w = []
  · subst hw
    simp [canPlaceWordAt]
  · rw [canPlaceWordAt, if_neg hw]
    by_cases hb : (isWithinBounds L.boardSize r c &&
        isWithinBounds L.boardSize (cellOf d r c (w.length - 1)).1
          (cellOf d r c (w.length - 1)).2) = true
    · rw [if_neg (by simp [hb])]
      cases hwalk : canPlaceWalk L d false w r c false with
      | none =>
        simp only [Bool.false_eq_true, false_iff]
        rintro ⟨-, -, hmatch, hempty, -⟩
        have hsome : (canPlaceWalk L d false w r c false).isSome = true :=
          (canPlaceWalk_false_isSome_iff L d w r c false).mpr
            (fun i hi => ⟨hmatch i hi, hempty i hi⟩)
        rw [hwalk] at hsome
        simp at hsome
      | some conn =>
        dsimp only
        rw [if_neg (by simp)]
        cases conn with
        | false =>
          rw [if_pos rfl]
          simp only [Bool.false_eq_true, false_iff]
          rintro ⟨-, -, -, -, i, hi, hne, -⟩
          have := (canPlaceWalk_false_some_val L d w r c false false hwalk).mpr
            (Or.inr ⟨i, hi, hne⟩)
          exact Bool.false_ne_true this
        | true =>
          rw [if_neg (by simp)]
          simp only [true_iff]
          have hsome : (canPlaceWalk L d false w r c false).isSome = true := by
            rw [hwalk]; rfl
          have hprop := (canPlaceWalk_false_isSome_iff L d w r c false).mp hsome
          have hconn : ∃ i < w.length,
              cellAt L.board (cellOf d r c i).1 (cellOf d r c i).2 ≠ L.emptyChar := by
            rcases (canPlaceWalk_false_some_val L d w r c false true hwalk).mp rfl with
              hfalse | hex
            · exact absurd hfalse (by simp)
            · exact hex
        -- assemble
          obtain ⟨i, hi, hne⟩ := hconn
          exact ⟨hw, (boundsCheck_iff_spanInBounds L w hw r c d).mp hb,
            fun j hj => (hprop j hj).1, fun j hj => (hprop j hj).2,
            ⟨i, hi, hne, (hprop i hi).1 hne⟩⟩
    · have hb2 : (isWithinBounds L.boardSize r c &&
          isWithinBounds L.boardSize (cellOf d r c (w.length - 1)).1
            (cellOf d r c (w.length - 1)).2) = false := by
        simpa using hb
      rw [if_pos (by simp [hb2])]
      simp only [Bool.false_eq_true, false_iff]
      rintro ⟨hw2, hspan, -⟩
      exact hb ((boundsCheck_iff_spanInBounds L w hw2 r c d).mpr hspan)

/-- For a non-first candidate the reported connection flag equals acceptance. -/
theorem canPlaceWordAt_false_conn_eq (L : ScrabbleLayouter) (w : List Char)
    (r c : Int) (d : Dir) :
    (canPlaceWordAt L w r c d false).2 = (canPlaceWordAt L w r c d false).1 := by
  by_cases hw : w = []
  · simp [canPlaceWordAt, hw]
  · rw [canPlaceWordAt, if_neg hw]
    by_cases hb : (isWithinBounds L.boardSize r c &&
        isWithinBounds L.boardSize (cellOf d r c (w.length - 1)).1
          (cellOf d r c (w.length - 1)).2) = true
    · rw [if_neg (by simp [hb])]
      cases hwalk : canPlaceWalk L d false w r c false with
      | none => rfl
      | some conn =>
        dsimp only
        rw [if_neg (by simp)]
        cases conn with
        | false => rw [if_pos rfl]
        | true => rw [if_neg (by simp)]
    · have hb2 : (isWithinBounds L.boardSize r c &&
          isWithinBounds L.boardSize (cellOf d r c (w.length - 1)).1
            (cellOf d r c (w.length - 1)).2) = false := by
        simpa using hb
      rw [if_pos (by simp [hb2])]

/-- Claim C4: acceptance of a non-first candidate is equivalent to the
conjunction of the spec's five conditions (non-empty word, span in bounds,
occupied cells match, empty cells perpendicular-clear, at least one occupied
match), and the reported `made_connection` flag is true exactly on acceptance,
in which case an occupied match exists. -/
theorem claim_C4_validator_subsequent_characterisation (L : ScrabbleLayouter)
    (w : List Char) (r c : Int) (d : Dir) :
    ((canPlaceWordAt L w r c d false).1 = true ↔
      (w ≠ [] ∧ specSpanInBounds L w r c d ∧ specOccupiedCellsMatch L w r c d ∧
       specEmptyCellsUntouched L w r c d ∧ specHasConnection L w r c d)) ∧
    ((canPlaceWordAt L w r c d false).2 = true ↔
      ((canPlaceWordAt L w r c d false).1 = true ∧ specHasConnection L w r c d)) := by
  refine ⟨canPlaceWordAt_false_accept_iff L w r c d, ?_⟩
  rw [canPlaceWordAt_false_conn_eq]
  constructor
  · intro h1
    exact ⟨h1, ((canPlaceWordAt_false_accept_iff L w r c d).mp h1).2.2.2.2⟩
  · rintro ⟨h1, -⟩
    exact h1

/-- Claim C2: for a subsequent word, the engine's nested search commits
exactly the first candidate, in the spec's nested enumeration order (letter
index ascending, row ascending, column ascending, horizontal before
vertical, with starts `(row, col - i)` and `(row - i, col)`), that the
validator accepts with a connection; if none is accepted the state is
unchanged. -/
theorem claim_C2_search_order_and_greedy_commit (L : ScrabbleLayouter) (word : List Char) :
    placeSubsequentWord L word =
      match (specCandidateStarts L word).find? (specAccepted L word) with
      | some (r, c, d) => placeWordOnBoard L word r c d
      | none => L := by
  by_cases hw : word = []
  · subst hw
    simp [placeSubsequentWord, specCandidateStarts]
  · rw [placeSubsequentWord, if_neg hw, findPlacementForWord_eq_find]

/-- Claim C6: a subsequent word whose search yields no accepted placement
leaves the layouter (board and placement log) unchanged; and any returned
placement was fully accepted by the validator (with a connection), the state
change being exactly that single commit. -/
theorem claim_C6_failed_word_leaves_state_unchanged (L : ScrabbleLayouter) (word : List Char) :
    (findPlacementForWord L word = none → placeSubsequentWord L word = L) ∧
    (∀ r c d, findPlacementForWord L word = some (r, c, d) →
      canPlaceWordAt L word r c d false = (true, true) ∧
      placeSubsequentWord L word = placeWordOnBoard L word r c d) := by
  constructor
  · intro hnone
    rw [placeSubsequentWord]
    by_cases hw : word = []
    · rw [if_pos hw]
    · rw [if_neg hw, hnone]
  · intro r c d hsome
    have hw : word ≠ [] := by
      intro he
      subst he
      rw [findPlacementForWord_eq_find] at hsome
      simp [specCandidateStarts] at hsome
    have hacc : specAccepted L word (r, c, d) = true := by
      rw [findPlacementForWord_eq_find] at hsome
      exact List.find?_some hsome
    unfold specAccepted at hacc
    simp only [Bool.and_eq_true] at hacc
    refine ⟨?_, ?_⟩
    · cases hres : canPlaceWordAt L word r c d false with
      | mk a b =>
        rw [hres] at hacc
        simp only at hacc
        rw [hacc.1, hacc.2]
    · rw [placeSubsequentWord, if_neg hw, hsome]

/-- Claim C1 (counterexample): on a board reached by the engine from a fresh
9×9 layouter and the word list ABCDE, PQBRS, TUEFG, SHJ, a non-first word
(the vertical TUEFG) has a letter perpendicular-adjacent to another word's
letter (the final J of SHJ) with no shared intersection cell involved: the
claimed invariant fails on reachable boards. -/
theorem claim_C1_counterexample :
    specIllegalPerpTouch (layoutWords (freshLayouter 9 '.')
      [['A','B','C','D','E'], ['P','Q','B','R','S'], ['T','U','E','F','G'], ['S','H','J']]) =
      true := by
  rw [layoutWords.eq_def]
  decide

/-- Claim C1 (amended): the perpendicular-neighbour rejection guarantees the
no-illegal-touching condition only at placement time — whenever the validator
accepts a non-first candidate, every previously-empty cell of its span has
both perpendicular neighbours empty at that moment.  It does not preserve the
global invariant over sequences of placements, since the cells just beyond a
candidate's two ends in its own direction are never inspected. -/
theorem claim_C1_perp_clear_at_placement (L : ScrabbleLayouter) (w : List Char)
    (r c : Int) (d : Dir) (hacc : (canPlaceWordAt L w r c d false).1 = true) :
    specEmptyCellsUntouched L w r c d :=
  ((canPlaceWordAt_false_accept_iff L w r c d).mp hacc).2.2.2.1

theorem claim_C1_perp_clear_at_placement_witness :
    (canPlaceWordAt exampleLayouterCAT ['C', 'A', 'R'] 2 1 Dir.V false).1 = true ∧
    specEmptyCellsUntouched exampleLayouterCAT ['C', 'A', 'R'] 2 1 Dir.V :=
  ⟨by decide,
   claim_C1_perp_clear_at_placement exampleLayouterCAT ['C', 'A', 'R'] 2 1 Dir.V (by decide)⟩

/-- Claim C5: seeding of the first word tries exactly the four anchors of the
spec in fixed priority order (horizontal centred at row `size/2`, column
`(size - len)/2`; vertical centred with the swapped formula; horizontal at
the origin; vertical at the origin), each validated with
`is_first_word = true`, commits the first accepted candidate and stops; if
all four are rejected the result is `none` (word unplaceable). -/
theorem claim_C5_first_word_anchor_order (L : ScrabbleLayouter) (w : List Char) :
    trySeedFirstWord L w =
      ((specSeedAnchors L.boardSize w.length).find?
        (fun cand => (canPlaceWordAt L w cand.1 cand.2.1 cand.2.2 true).1)).map
        (fun cand => placeWordOnBoard L w cand.1 cand.2.1 cand.2.2) := by
  unfold trySeedFirstWord specSeedAnchors
  by_cases h1 : (canPlaceWordAt L w ((L.boardSize : Int) / 2)
      (((L.boardSize : Int) - (w.length : Int)) / 2) Dir.H true).1 = true
  · simp [List.find?, h1]
  · by_cases h2 : (canPlaceWordAt L w (((L.boardSize : Int) - (w.length : Int)) / 2)
        ((L.boardSize : Int) / 2) Dir.V true).1 = true
    · simp [List.find?, h1, h2]
    · by_cases h3 : (canPlaceWordAt L w 0 0 Dir.H true).1 = true
      · simp [List.find?, h1, h2, h3]
      · by_cases h4 : (canPlaceWordAt L w 0 0 Dir.V true).1 = true
        · simp [List.find?, h1, h2, h3, h4]
        · simp [List.find?, h1, h2, h3, h4]

/-- Claim C3 (counterexample): with an invalid empty marker (the empty
string), the constructor raises the configuration error but the public entry
point `create_scrabble_layout` catches it and hands the caller a substitute
5×5 grid filled with the invalid marker — the caller receives a board, not
the error. -/
theorem claim_C3_counterexample :
    mkLayouter 5 [] = Except.error ConfigError.invalidEmptyChar ∧
    createScrabbleLayout [['H', 'I']] 5 [] = List.replicate 5 (List.replicate 5 []) := by
  exact ⟨rfl, rfl⟩

/-- Claim C3 (amended): for size ≤ 0 or a marker that is not exactly one
character, the constructor fails with the configuration error, but
`create_scrabble_layout` recovers internally: it catches the error and
returns a substitute `size × size` grid filled with the raw marker instead of
surfacing the error to its caller. -/
theorem claim_C3_config_error_recovered (words : List (List Char)) (boardSize : Int)
    (emptyChar : List Char) (h : boardSize ≤ 0 ∨ emptyChar.length ≠ 1) :
    (∃ e, mkLayouter boardSize emptyChar = Except.error e) ∧
    createScrabbleLayout words boardSize emptyChar =
      List.replicate boardSize.toNat (List.replicate boardSize.toNat emptyChar) := by
  have herr : ∃ e, mkLayouter boardSize emptyChar = Except.error e := by
    unfold mkLayouter
    rcases h with h | h
    · exact ⟨ConfigError.invalidBoardSize, by rw [if_pos h]⟩
    · by_cases hs : boardSize ≤ 0
      · exact ⟨ConfigError.invalidBoardSize, by rw [if_pos hs]⟩
      · exact ⟨ConfigError.invalidEmptyChar, by rw [if_neg hs, if_pos h]⟩
  obtain ⟨e, he⟩ := herr
  refine ⟨⟨e, he⟩, ?_⟩
  unfold createScrabbleLayout
  rw [he]

theorem claim_C3_config_error_recovered_witness :
    ((0 : Int) ≤ 0 ∨ ([] : List Char).length ≠ 1) ∧
    ((∃ e, mkLayouter 0 ['.'] = Except.error e) ∧
      createScrabbleLayout [['A']] 0 ['.'] =
        List.replicate (0 : Int).toNat (List.replicate (0 : Int).toNat ['.'])) :=
  ⟨Or.inl le_rfl,
   claim_C3_config_error_recovered [['A']] 0 ['.'] (Or.inl le_rfl)⟩

/-- Claim C9: the engine is a deterministic function of its inputs — two runs
of the full pipeline on equal word lists, board sizes and empty markers
produce equal output grids (and, the layouter being returned whole, equal
placement logs). -/
theorem claim_C9_deterministic (words1 words2 : List (List Char))
    (size1 size2 : Int) (ec1 ec2 : List Char)
    (hw : words1 = words2) (hs : size1 = size2) (he : ec1 = ec2) :
    createScrabbleLayout words1 size1 ec1 = createScrabbleLayout words2 size2 ec2 := by
  subst hw
  subst hs
  subst he
  rfl

theorem claim_C9_deterministic_witness :
    ([['H', 'I']] : List (List Char)) = [['H', 'I']] ∧ (3 : Int) = 3 ∧
    (['.'] : List Char) = ['.'] ∧
    createScrabbleLayout [['H', 'I']] 3 ['.'] = createScrabbleLayout [['H', 'I']] 3 ['.'] :=
  ⟨rfl, rfl, rfl, claim_C9_deterministic [['H', 'I']] [['H', 'I']] 3 3 ['.'] ['.'] rfl rfl rfl⟩

/-!
Lemmas about fresh (all-empty) boards, and claim C10.
-/

theorem cellAt_mkEmptyBoard (size : Nat) (ec : Char) (r c : Int)
    (h1 : 0 ≤ r) (h2 : r < (size : Int)) (h3 : 0 ≤ c) (h4 : c < (size : Int)) :
    cellAt (mkEmptyBoard size ec) r c = ec := by
  unfold cellAt mkEmptyBoard
  have hr : r.toNat < size := by omega
  have hc : c.toNat < size := by omega
  simp [List.getD_eq_getElem?_getD, List.getElem?_replicate, hr, hc]

/-- On a fresh board, a first-word candidate is accepted iff the word is
non-empty and the endpoint bounds test passes. -/
theorem canPlaceWordAt_true_fresh_iff (size : Nat) (ec : Char) (w : List Char)
    (r c : Int) (d : Dir) :
    (canPlaceWordAt (freshLayouter size ec) w r c d true).1 = true ↔
      (w ≠ [] ∧ (isWithinBounds size r c &&
        isWithinBounds size (cellOf d r c (w.length - 1)).1
          (cellOf d r c (w.length - 1)).2) = true) := by
  by_cases hw : w = []
  · simp [canPlaceWordAt, hw]
  · rw [canPlaceWordAt, if_neg hw]
    by_cases hb : (isWithinBounds size r c &&
        isWithinBounds size (cellOf d r c (w.length - 1)).1
          (cellOf d r c (w.length - 1)).2) = true
    · rw [if_neg (by simp [freshLayouter, hb])]
      have hspan : specSpanInBounds (freshLayouter size ec) w r c d :=
        (boundsCheck_iff_spanInBounds (freshLayouter size ec) w hw r c d).mp hb
      have hempty : ∀ i < w.length,
          cellAt (freshLayouter size ec).board (cellOf d r c i).1 (cellOf d r c i).2 =
            (freshLayouter size ec).emptyChar := by
        intro i hi
        have hbnd := hspan i hi
        simp only [isWithinBounds, Bool.and_eq_true, decide_eq_true_eq] at hbnd
        exact cellAt_mkEmptyBoard size ec _ _ hbnd.1.1.1 hbnd.1.1.2 hbnd.1.2 hbnd.2
      rw [canPlaceWalk_true_of_all_empty _ _ _ _ _ _ hempty]
      simp [hw, hb]
    · have hb2 : (isWithinBounds size r c &&
          isWithinBounds size (cellOf d r c (w.length - 1)).1
            (cellOf d r c (w.length - 1)).2) = false := by simpa using hb
      rw [if_pos (by simp [freshLayouter, hb2])]
      simp [hw, hb2]

/-- Claim C10: on a fresh board with positive size, seeding a non-empty first
word succeeds iff the word fits (`len ≤ size`); and whenever it fits, the
very first anchor — horizontal, row `size / 2`, column `(size - len) / 2` —
is accepted, so the word is committed there and the three fallback anchors
are never used. -/
theorem claim_C10_first_word_centred_seeding (size : Nat) (ec : Char) (w : List Char)
    (hsize : 0 < size) (hw : w ≠ []) :
    ((trySeedFirstWord (freshLayouter size ec) w).isSome = true ↔ w.length ≤ size) ∧
    (w.length ≤ size →
      trySeedFirstWord (freshLayouter size ec) w =
        some (placeWordOnBoard (freshLayouter size ec) w ((size : Int) / 2)
          (((size : Int) - (w.length : Int)) / 2) Dir.H)) := by
  have hlen : 1 ≤ w.length := List.length_pos.mpr hw
  have hfirst : (canPlaceWordAt (freshLayouter size ec) w ((size : Int) / 2)
      (((size : Int) - (w.length : Int)) / 2) Dir.H true).1 = true ↔ w.length ≤ size := by
    rw [canPlaceWordAt_true_fresh_iff]
    simp only [isWithinBounds, cellOf, Bool.and_eq_true, decide_eq_true_eq]
    constructor
    · rintro ⟨-, hb⟩
      omega
    · intro hle
      exact ⟨hw, by omega⟩
  have hcommit : w.length ≤ size →
      trySeedFirstWord (freshLayouter size ec) w =
        some (placeWordOnBoard (freshLayouter size ec) w ((size : Int) / 2)
          (((size : Int) - (w.length : Int)) / 2) Dir.H) := by
    intro hle
    simp only [trySeedFirstWord, freshLayouter]
    rw [if_pos (by simpa [freshLayouter] using hfirst.mpr hle)]
  refine ⟨⟨?_, fun hle => by rw [hcommit hle]; rfl⟩, hcommit⟩
  intro hsome
  simp only [trySeedFirstWord] at hsome
  by_cases h1 : (canPlaceWordAt (freshLayouter size ec) w
      (((freshLayouter size ec).boardSize : Int) / 2)
      ((((freshLayouter size ec).boardSize : Int) - (w.length : Int)) / 2) Dir.H true).1 = true
  · exact hfirst.mp (by simpa [freshLayouter] using h1)
  · rw [if_neg h1] at hsome
    by_cases h2 : (canPlaceWordAt (freshLayouter size ec) w
        ((((freshLayouter size ec).boardSize : Int) - (w.length : Int)) / 2)
        (((freshLayouter size ec).boardSize : Int) / 2) Dir.V true).1 = true
    · obtain ⟨-, hb⟩ := (canPlaceWordAt_true_fresh_iff size ec w _ _ Dir.V).mp
        (by simpa [freshLayouter] using h2)
      simp only [isWithinBounds, cellOf, Bool.and_eq_true, decide_eq_true_eq] at hb
      omega
    · rw [if_neg h2] at hsome
      by_cases h3 : (canPlaceWordAt (freshLayouter size ec) w 0 0 Dir.H true).1 = true
      · obtain ⟨-, hb⟩ := (canPlaceWordAt_true_fresh_iff size ec w 0 0 Dir.H).mp h3
        simp only [isWithinBounds, cellOf, Bool.and_eq_true, decide_eq_true_eq] at hb
        omega
      · rw [if_neg h3] at hsome
        by_cases h4 : (canPlaceWordAt (freshLayouter size ec) w 0 0 Dir.V true).1 = true
        · obtain ⟨-, hb⟩ := (canPlaceWordAt_true_fresh_iff size ec w 0 0 Dir.V).mp h4
          simp only [isWithinBounds, cellOf, Bool.and_eq_true, decide_eq_true_eq] at hb
          omega
        · rw [if_neg h4] at hsome
          exact absurd hsome (by simp)

theorem claim_C10_first_word_centred_seeding_witness :
    0 < 5 ∧ (['C', 'A', 'T'] : List Char) ≠ [] ∧
    (((trySeedFirstWord (freshLayouter 5 '.') ['C', 'A', 'T']).isSome = true ↔
        (['C', 'A', 'T'] : List Char).length ≤ 5) ∧
     ((['C', 'A', 'T'] : List Char).length ≤ 5 →
        trySeedFirstWord (freshLayouter 5 '.') ['C', 'A', 'T'] =
          some (placeWordOnBoard (freshLayouter 5 '.') ['C', 'A', 'T']
            (((5 : Nat) : Int) / 2)
            ((((5 : Nat) : Int) - ((['C', 'A', 'T'] : List Char).length : Int)) / 2) Dir.H))) :=
  ⟨by decide, by decide,
   claim_C10_first_word_centred_seeding 5 '.' ['C', 'A', 'T'] (by decide) (by decide)⟩

theorem claim_C6_failed_word_leaves_state_unchanged_witness :
    findPlacementForWord (freshLayouter 3 '.') ['A'] = none ∧
    placeSubsequentWord (freshLayouter 3 '.') ['A'] = freshLayouter 3 '.' :=
  ⟨by decide,
   (claim_C6_failed_word_leaves_state_unchanged (freshLayouter 3 '.') ['A']).1 (by decide)⟩

/-!
Normalisation lemmas (upper-casing is idempotent) and unfolding equations for
`layoutWords`, used for claims C7 and C8.
-/

theorem ofNat_sub32_toNat (n : Nat) (h1 : 97 ≤ n) (h2 : n ≤ 122) :
    (Char.ofNat (n - 32)).toNat = n - 32 := by
  interval_cases n <;> rfl

theorem Char_toUpper_idem (c : Char) : c.toUpper.toUpper = c.toUpper := by
  by_cases h : c.toNat ≥ 97 ∧ c.toNat ≤ 122
  · have h1 : c.toUpper = Char.ofNat (c.toNat - 32) := by
      show (if c.toNat ≥ 97 ∧ c.toNat ≤ 122 then Char.ofNat (c.toNat - 32) else c) = _
      rw [if_pos h]
    have h2 : c.toUpper.toNat = c.toNat - 32 := by
      rw [h1]
      exact ofNat_sub32_toNat c.toNat h.1 h.2
    have h3 : ¬(c.toUpper.toNat ≥ 97 ∧ c.toUpper.toNat ≤ 122) := by omega
    show (if c.toUpper.toNat ≥ 97 ∧ c.toUpper.toNat ≤ 122 then
        Char.ofNat (c.toUpper.toNat - 32) else c.toUpper) = c.toUpper
    rw [if_neg h3]
  · have h1 : c.toUpper = c := by
      show (if c.toNat ≥ 97 ∧ c.toNat ≤ 122 then Char.ofNat (c.toNat - 32) else c) = c
      rw [if_neg h]
    conv_lhs => rw [h1]

theorem map_toUpper_idem (w : List Char) :
    (w.map Char.toUpper).map Char.toUpper = w.map Char.toUpper := by
  rw [List.map_map]
  induction w with
  | nil => rfl
  | cons c w ih =>
    simp only [List.map_cons, Function.comp_apply, Char_toUpper_idem]
    rw [ih]

theorem mem_normalizeWords_fixed (ws : List (List Char)) (w : List Char)
    (hw : w ∈ normalizeWords ws) : w ≠ [] ∧ w.map Char.toUpper = w := by
  unfold normalizeWords at hw
  rw [List.mem_map] at hw
  obtain ⟨u, hu, rfl⟩ := hw
  have hu2 : u ≠ [] := by
    have := List.of_mem_filter hu
    simpa using this
  constructor
  · simp [hu2]
  · exact map_toUpper_idem u

theorem map_fixed_eq_self (l : List (List Char))
    (h : ∀ w ∈ l, w.map Char.toUpper = w) : l.map (List.map Char.toUpper) = l := by
  induction l with
  | nil => rfl
  | cons w rest ih =>
    rw [List.map_cons, h w (List.mem_cons_self _ _),
      ih (fun u hu => h u (List.mem_cons_of_mem _ hu))]

theorem normalizeWords_idem (ws : List (List Char)) :
    normalizeWords (normalizeWords ws) = normalizeWords ws := by
  have hfix : ∀ w ∈ normalizeWords ws, w ≠ [] ∧ w.map Char.toUpper = w :=
    mem_normalizeWords_fixed ws
  conv_lhs => rw [normalizeWords]
  rw [List.filter_eq_self.mpr (fun w hw => by simpa using (hfix w hw).1)]
  exact map_fixed_eq_self _ (fun w hw => (hfix w hw).2)

theorem layoutWords_nil (L : ScrabbleLayouter) : layoutWords L [] = L := by
  rw [layoutWords.eq_def]
  simp

theorem layoutWords_of_norm_nil (L : ScrabbleLayouter) (ws : List (List Char))
    (hnorm : normalizeWords ws = []) : layoutWords L ws = L := by
  rw [layoutWords.eq_def]
  by_cases hws : ws = []
  · rw [if_pos hws]
  · rw [if_neg hws]
    split
    · rfl
    · rename_i fw rest heq
      rw [hnorm] at heq
      cases heq

theorem layoutWords_of_seed_some (L : ScrabbleLayouter) (ws : List (List Char))
    (fw : List Char) (rest : List (List Char)) (seeded : ScrabbleLayouter)
    (hnorm : normalizeWords ws = fw :: rest)
    (hseed : trySeedFirstWord L fw = some seeded) :
    layoutWords L ws = rest.foldl placeSubsequentWord seeded := by
  have hws : ws ≠ [] := by
    intro he
    subst he
    cases hnorm
  rw [layoutWords.eq_def, if_neg hws]
  split
  · rename_i heq
    rw [hnorm] at heq
    cases heq
  · rename_i fw2 rest2 heq
    rw [hnorm] at heq
    cases heq
    rw [hseed]

theorem layoutWords_of_seed_none (L : ScrabbleLayouter) (ws : List (List Char))
    (fw : List Char) (rest : List (List Char))
    (hnorm : normalizeWords ws = fw :: rest)
    (hseed : trySeedFirstWord L fw = none) :
    layoutWords L ws = (if rest = [] then L else layoutWords (resetForRestart L) rest) := by
  have hws : ws ≠ [] := by
    intro he
    subst he
    cases hnorm
  rw [layoutWords.eq_def, if_neg hws]
  split
  · rename_i heq
    rw [hnorm] at heq
    cases heq
  · rename_i fw2 rest2 heq
    rw [hnorm] at heq
    cases heq
    rw [hseed]

/-- Claim C7: the engine normalises its input before any placement attempt —
the run on `ws` equals the run on the normalised list (each word upper-cased,
empty strings dropped) — and an input that normalises to nothing leaves the
layouter untouched (for a fresh layouter: no cell written, empty log). -/
theorem claim_C7_normalization (L : ScrabbleLayouter) (ws : List (List Char)) :
    layoutWords L ws = layoutWords L (normalizeWords ws) ∧
    (normalizeWords ws = [] → layoutWords L ws = L) := by
  have hmain : layoutWords L ws = layoutWords L (normalizeWords ws) := by
    cases hnorm : normalizeWords ws with
    | nil =>
      rw [layoutWords_of_norm_nil L ws hnorm, layoutWords_nil]
    | cons fw rest =>
      have hnorm3 : normalizeWords (fw :: rest) = fw :: rest := by
        conv_lhs => rw [← hnorm]
        rw [normalizeWords_idem, hnorm]
      cases hseed : trySeedFirstWord L fw with
      | some seeded =>
        rw [layoutWords_of_seed_some L ws fw rest seeded hnorm hseed,
          layoutWords_of_seed_some L (fw :: rest) fw rest seeded hnorm3 hseed]
      | none =>
        rw [layoutWords_of_seed_none L ws fw rest hnorm hseed,
          layoutWords_of_seed_none L (fw :: rest) fw rest hnorm3 hseed]
  exact ⟨hmain, fun hnil => layoutWords_of_norm_nil L ws hnil⟩

theorem claim_C7_normalization_witness :
    normalizeWords [[]] = [] ∧
    layoutWords (freshLayouter 4 '.') [[]] = freshLayouter 4 '.' :=
  ⟨by decide, (claim_C7_normalization (freshLayouter 4 '.') [[]]).2 (by decide)⟩

/-- Claim C8: when the current candidate first word cannot be seeded and more
words remain, the engine discards the whole board and log (reset) and
restarts seeding on the queue's tail — one word shorter, so the restart
depth is bounded by the input length and the (total) function terminates —
and when every word in the queue fails to seed, the fresh layouter is
returned with its empty board. -/
theorem claim_C8_seed_restart_and_termination :
    (∀ (L : ScrabbleLayouter) (ws : List (List Char)) (fw : List Char)
        (rest : List (List Char)),
      normalizeWords ws = fw :: rest → trySeedFirstWord L fw = none →
        layoutWords L ws =
          (if rest = [] then L else layoutWords (resetForRestart L) rest)) ∧
    (∀ (size : Nat) (ec : Char) (ws : List (List Char)),
      (∀ w ∈ normalizeWords ws, trySeedFirstWord (freshLayouter size ec) w = none) →
        layoutWords (freshLayouter size ec) ws = freshLayouter size ec) := by
  refine ⟨layoutWords_of_seed_none, ?_⟩
  intro size ec
  have hreset : resetForRestart (freshLayouter size ec) = freshLayouter size ec := rfl
  have main : ∀ (n : Nat) (ws : List (List Char)), ws.length ≤ n →
      (∀ w ∈ normalizeWords ws, trySeedFirstWord (freshLayouter size ec) w = none) →
      layoutWords (freshLayouter size ec) ws = freshLayouter size ec := by
    intro n
    induction n with
    | zero =>
      intro ws hlen _
      have hws : ws = [] := List.length_eq_zero.mp (Nat.le_zero.mp hlen)
      rw [hws, layoutWords_nil]
    | succ n ih =>
      intro ws hlen hall
      cases hnorm : normalizeWords ws with
      | nil => exact layoutWords_of_norm_nil _ ws hnorm
      | cons fw rest =>
        have hfw : trySeedFirstWord (freshLayouter size ec) fw = none :=
          hall fw (by rw [hnorm]; exact List.mem_cons_self _ _)
        rw [layoutWords_of_seed_none _ ws fw rest hnorm hfw]
        by_cases hr : rest = []
        · rw [if_pos hr]
        · rw [if_neg hr, hreset]
          refine ih rest ?_ ?_
          · have h2 : (normalizeWords ws).length ≤ ws.length := by
              unfold normalizeWords
              rw [List.length_map]
              exact List.length_filter_le _ _
            rw [hnorm] at h2
            simp only [List.length_cons] at h2
            omega
          · intro w hw
            apply hall
            unfold normalizeWords at hw
            rw [List.mem_map] at hw
            obtain ⟨u, hu, rfl⟩ := hw
            have hu2 : u ∈ rest := List.mem_of_mem_filter hu
            have hu3 : u ∈ normalizeWords ws := by
              rw [hnorm]
              exact List.mem_cons_of_mem _ hu2
            rw [(mem_normalizeWords_fixed ws u hu3).2]
            exact hu3
  intro ws
  exact main ws.length ws le_rfl

theorem claim_C8_seed_restart_and_termination_witness :
    (∀ w ∈ normalizeWords [['A', 'B', 'C']],
      trySeedFirstWord (freshLayouter 2 '.') w = none) ∧
    layoutWords (freshLayouter 2 '.') [['A', 'B', 'C']] = freshLayouter 2 '.' :=
  ⟨by decide,
   claim_C8_seed_restart_and_termination.2 2 '.' [['A', 'B', 'C']] (by decide)⟩

end ScrabbleSpec
